import Mathlib

/-!
Verification of the acoustic-fingerprinting service (Shazam-style matcher).

This file gives a shallow embedding, in Lean 4, of the parts of the Rust
source that the specification claims talk about:

* `src/shazam/fingerprint.rs` — `create_address`, `fingerprint`;
* `src/shazam/spectrogram.rs` — `downsample`, `spectrogram`, `extract_peaks`;
* `src/shazam/filter.rs` — `LowPassFilter`;
* `src/shazam/fft.rs` — `fft`, `recursive_fft`;
* `src/shazam/shazam.rs` — `analyze_relative_timing` and the final sort of
  `find_matches`;
* `src/db/sqlite.rs` — the relational state and the operations
  `store_fingerprints`, `get_couples`, `register_song`, `delete_song_by_id`.

Modelling conventions.

* Rust `u32` values are natural numbers; wrap-around of `<<` is written with
  an explicit `% 2^32`, and `|||` is `Nat.lor`.
* Rust `f64` values are modelled as rationals.  The claims settled here only
  depend on exact integer values flowing through the float operations
  (`u32 as f64` round-trips, subtraction and comparison of integers below
  `2^53`, the saturating `as u32` cast), where IEEE double arithmetic is
  exact, so the rational model agrees with the float semantics on every
  computation the theorems mention.
* Transcendental coefficients (the low-pass `alpha`, the Hamming-window
  table, the FFT twiddle factors, the complex magnitude) are taken as
  parameters of the embedding; the structural theorems proved about the DSP
  chain hold for every value of these parameters.
* A SQL table is modelled by its set of rows; `INSERT OR REPLACE` on a table
  whose primary key covers all columns is set insertion.
-/

/-- Models `models::Couple`: one posting value, `(anchor_time_ms, song_id)`,
both Rust `u32`. -/
structure Couple where
  anchor_time_ms : ℕ
  song_id : ℕ
deriving DecidableEq, Repr

/-- Models `fingerprint::Peak`: a peak with its time in seconds (`f64`) and
its complex frequency sample (`Complex<f64>`, kept as a pair of rationals). -/
structure Peak where
  time : ℚ
  freq : ℚ × ℚ
deriving DecidableEq, Repr

/-- Models the Rust cast `q as u32` on an `f64` value: truncation toward zero
with saturation at the bounds of `u32`.  For `q > 0` truncation is
`q.num.toNat / q.den`; everything `≤ 0` saturates to `0`. -/
def f64ToU32 (q : ℚ) : ℕ :=
  if q ≤ 0 then 0 else min (q.num.toNat / q.den) (2 ^ 32 - 1)

/-- Models the Rust `u32` shift `x << k`: bits shifted past bit 31 are
discarded, i.e. multiplication by `2^k` modulo `2^32`. -/
def u32Shl (x k : ℕ) : ℕ := (x * 2 ^ k) % 2 ^ 32

/-- Models `fingerprint::create_address` (src/shazam/fingerprint.rs:28-35):

    let anchor_freq = anchor.freq.re as u32;
    let target_freq = target.freq.re as u32;
    let delta_ms = ((target.time - anchor.time) * 1000.0) as u32;
    (anchor_freq << 23) | (target_freq << 14) | delta_ms

No masking is applied to any of the three fields. -/
def create_address (anchor target : Peak) : ℕ :=
  let anchor_freq := f64ToU32 anchor.freq.1
  let target_freq := f64ToU32 target.freq.1
  let delta_ms := f64ToU32 ((target.time - anchor.time) * 1000)
  u32Shl anchor_freq 23 ||| u32Shl target_freq 14 ||| delta_ms

/-- Spec-side address encoding, written from the specification words for
claim C2 ("anchor_freq_bin[31:23] || target_freq_bin[22:14] ||
delta_ms[13:0]", each field masked to its width).  This is the packing the
claim asserts `create_address` computes; it is compared against the code
definition above. -/
def claimedAddress (anchor target : Peak) : ℕ :=
  (f64ToU32 anchor.freq.1 % 2 ^ 9) * 2 ^ 23 +
    (f64ToU32 target.freq.1 % 2 ^ 9) * 2 ^ 14 +
    f64ToU32 ((target.time - anchor.time) * 1000) % 2 ^ 14

/-- Models insertion into `HashMap<u32, Couple>`: if the key is present its
value is overwritten in place, otherwise the binding is appended.  The list
order stands for iteration order; the theorems below never depend on it. -/
def insertKV (m : List (ℕ × Couple)) (k : ℕ) (v : Couple) : List (ℕ × Couple) :=
  if m.any (fun p => p.1 == k) then
    m.map (fun p => if p.1 == k then (k, v) else p)
  else
    m ++ [(k, v)]

/-- Models the anchor/target pair enumeration of `fingerprint`
(src/shazam/fingerprint.rs:14-15): each peak is an anchor, paired with the
next `TARGET_ZONE_SIZE = 5` peaks. -/
def fpPairs : List Peak → List (Peak × Peak)
  | [] => []
  | a :: rest => ((rest.take 5).map (fun t => (a, t))) ++ fpPairs rest

/-- Loop body of `fingerprint`: hash the pair and upsert the couple
`(anchor_time_ms, song_id)` under the resulting address. -/
def fpStep (song_id : ℕ) (m : List (ℕ × Couple)) (p : Peak × Peak) :
    List (ℕ × Couple) :=
  insertKV m (create_address p.1 p.2) ⟨f64ToU32 (p.1.time * 1000), song_id⟩

/-- Models `fingerprint::fingerprint` (src/shazam/fingerprint.rs:11-23):
for every anchor/target pair, insert
`address ↦ Couple { anchor_time_ms, song_id }` into a hash map, where a
later pair overwrites an earlier one hashing to the same address. -/
def fingerprint (peaks : List Peak) (song_id : ℕ) : List (ℕ × Couple) :=
  (fpPairs peaks).foldl (fpStep song_id) []

/-- Evaluation rule for the saturating cast at a nonnegative-integer value:
`(n : ℚ) as u32` is `n` clamped to the `u32` range. -/
theorem f64ToU32_natCast (n : ℕ) : f64ToU32 (n : ℚ) = min n (2 ^ 32 - 1) := by
  unfold f64ToU32
  rcases Nat.eq_zero_or_pos n with h | h
  · subst h; norm_num
  · rw [if_neg (by exact_mod_cast Nat.not_le.mpr (by exact_mod_cast h))]
    simp [Rat.num_natCast, Rat.den_natCast]

/-- Helper: clamped cast of a small nonnegative integer literal. -/
theorem f64ToU32_lit (n : ℕ) (h : n ≤ 2 ^ 32 - 1) : f64ToU32 (n : ℚ) = n := by
  rw [f64ToU32_natCast]; omega

/-- Helper for C2: when all three fields are within their widths, the
unmasked shift-and-or of `create_address` coincides with exact base-2
packing. -/
theorem lorFieldsEqAdd (af tf d : ℕ) (h1 : af < 512) (h2 : tf < 512)
    (h3 : d < 16384) :
    u32Shl af 23 ||| u32Shl tf 14 ||| d = af * 2 ^ 23 + tf * 2 ^ 14 + d := by
  have hx : u32Shl af 23 = af * 2 ^ 23 := by
    unfold u32Shl; norm_num; omega
  have hy : u32Shl tf 14 = tf * 2 ^ 14 := by
    unfold u32Shl; norm_num; omega
  rw [hx, hy]
  have h5 : tf * 2 ^ 14 < 2 ^ 23 := by norm_num; omega
  have h6 : d < 2 ^ 14 := by norm_num; omega
  have e1 : af * 2 ^ 23 ||| tf * 2 ^ 14 = af * 2 ^ 23 + tf * 2 ^ 14 := by
    calc af * 2 ^ 23 ||| tf * 2 ^ 14 = 2 ^ 23 * af ||| tf * 2 ^ 14 := by
          rw [Nat.mul_comm]
      _ = 2 ^ 23 * af + tf * 2 ^ 14 := (Nat.mul_add_lt_is_or h5 af).symm
      _ = af * 2 ^ 23 + tf * 2 ^ 14 := by rw [Nat.mul_comm]
  have e2 : af * 2 ^ 23 + tf * 2 ^ 14 = 2 ^ 14 * (af * 2 ^ 9 + tf) := by ring
  rw [e1, e2]
  exact (Nat.mul_add_lt_is_or h6 (af * 2 ^ 9 + tf)).symm

/-- C2 (counterexample): the claimed layout fails on the code.  With anchor
and target frequencies 0 and a time delta of 17 s, the code address is
17000 (the unmasked delta bleeds its bit 14 into the target-frequency
field) while the claimed masked packing gives 616; with a target frequency
of 512 and zero delta, the code address is `2 ^ 23` — the target frequency
*does* alter the anchor-frequency bits 31:23 — while the claimed packing
gives 0. -/
theorem create_address_claim_counterexample :
    create_address ⟨0, (0, 0)⟩ ⟨17, (0, 0)⟩ = 17000 ∧
      claimedAddress ⟨0, (0, 0)⟩ ⟨17, (0, 0)⟩ = 616 ∧
      create_address ⟨0, (0, 0)⟩ ⟨0, (512, 0)⟩ = 2 ^ 23 ∧
      claimedAddress ⟨0, (0, 0)⟩ ⟨0, (512, 0)⟩ = 0 := by
  have hd : ((17 : ℚ) - 0) * 1000 = ((17000 : ℕ) : ℚ) := by norm_num
  have h0 : ((0 : ℚ) - 0) * 1000 = ((0 : ℕ) : ℚ) := by norm_num
  have h512 : (512 : ℚ) = ((512 : ℕ) : ℚ) := by norm_num
  have c0 : f64ToU32 ((0 : ℕ) : ℚ) = 0 := f64ToU32_lit 0 (by norm_num)
  have c17000 : f64ToU32 ((17000 : ℕ) : ℚ) = 17000 :=
    f64ToU32_lit 17000 (by norm_num)
  have c512 : f64ToU32 ((512 : ℕ) : ℚ) = 512 := f64ToU32_lit 512 (by norm_num)
  have z : f64ToU32 (0 : ℚ) = 0 := by
    simpa using c0
  refine ⟨?_, ?_, ?_, ?_⟩
  · show u32Shl (f64ToU32 (0 : ℚ)) 23 ||| u32Shl (f64ToU32 (0 : ℚ)) 14 |||
      f64ToU32 (((17 : ℚ) - 0) * 1000) = 17000
    rw [hd, z, c17000]
    norm_num [u32Shl]
  · show (f64ToU32 (0 : ℚ) % 2 ^ 9) * 2 ^ 23 +
      (f64ToU32 (0 : ℚ) % 2 ^ 9) * 2 ^ 14 +
      f64ToU32 (((17 : ℚ) - 0) * 1000) % 2 ^ 14 = 616
    rw [hd, z, c17000]
    norm_num
  · show u32Shl (f64ToU32 (0 : ℚ)) 23 ||| u32Shl (f64ToU32 (512 : ℚ)) 14 |||
      f64ToU32 (((0 : ℚ) - 0) * 1000) = 2 ^ 23
    rw [h0, h512, z, c0, c512]
    norm_num [u32Shl]
  · show (f64ToU32 (0 : ℚ) % 2 ^ 9) * 2 ^ 23 +
      (f64ToU32 (512 : ℚ) % 2 ^ 9) * 2 ^ 14 +
      f64ToU32 (((0 : ℚ) - 0) * 1000) % 2 ^ 14 = 0
    rw [h0, h512, z, c0, c512]
    norm_num

/-- C2 (amended): `create_address` packs the anchor-frequency bin into bits
31:23, the target-frequency bin into bits 22:14 and the millisecond delta
into bits 13:0 *provided* each truncated field already fits its width
(anchor and target bins < 512, delta < 16384); no masking is performed, so
outside these ranges the fields overlap instead of truncating. -/
theorem create_address_packed (anchor target : Peak)
    (h1 : f64ToU32 anchor.freq.1 < 512) (h2 : f64ToU32 target.freq.1 < 512)
    (h3 : f64ToU32 ((target.time - anchor.time) * 1000) < 16384) :
    create_address anchor target =
      f64ToU32 anchor.freq.1 * 2 ^ 23 + f64ToU32 target.freq.1 * 2 ^ 14 +
        f64ToU32 ((target.time - anchor.time) * 1000) :=
  lorFieldsEqAdd _ _ _ h1 h2 h3

/-- C2 witness: the spec's scenario-1 style pair — anchor at 1 s with bin
100, target at 2 s with bin 200 — gives `100<<23 | 200<<14 | 1000`. -/
theorem create_address_packed_witness :
    create_address ⟨1, (100, 0)⟩ ⟨2, (200, 0)⟩ = 842138600 := by
  have e100 : f64ToU32 (100 : ℚ) = 100 := by
    simpa using f64ToU32_lit 100 (by norm_num)
  have e200 : f64ToU32 (200 : ℚ) = 200 := by
    simpa using f64ToU32_lit 200 (by norm_num)
  have ed : ((2 : ℚ) - 1) * 1000 = ((1000 : ℕ) : ℚ) := by norm_num
  have e1000 : f64ToU32 (((2 : ℚ) - 1) * 1000) = 1000 := by
    rw [ed]; exact f64ToU32_lit 1000 (by norm_num)
  have h := create_address_packed ⟨1, (100, 0)⟩ ⟨2, (200, 0)⟩
    (by simpa using e100.le.trans_lt (by norm_num))
    (by simpa using e200.le.trans_lt (by norm_num))
    (by simpa using e1000.le.trans_lt (by norm_num))
  simpa [e100, e200, e1000] using h

/-- Keys after an upsert: unchanged when the key was present, appended
otherwise. -/
theorem keys_insertKV (m : List (ℕ × Couple)) (k : ℕ) (v : Couple) :
    (insertKV m k v).map Prod.fst =
      if m.any (fun p => p.1 == k) then m.map Prod.fst
      else m.map Prod.fst ++ [k] := by
  unfold insertKV
  split
  · rw [List.map_map]
    refine List.map_congr_left ?_
    intro p _
    by_cases h : p.1 = k <;> simp [h]
  · simp

/-- The hash-map `any` test is key membership. -/
theorem any_eq_mem_keys (m : List (ℕ × Couple)) (k : ℕ) :
    m.any (fun p => p.1 == k) = true ↔ k ∈ m.map Prod.fst := by
  simp only [List.any_eq_true, List.mem_map, beq_iff_eq]

/-- Fold invariant for `fingerprint`: folding the upsert step keeps the key
list duplicate-free and makes the key set the union of the starting keys
with the addresses of the processed pairs. -/
theorem fpFold_keys (sid : ℕ) :
    ∀ (l : List (Peak × Peak)) (m : List (ℕ × Couple)),
      (m.map Prod.fst).Nodup →
      ((l.foldl (fpStep sid) m).map Prod.fst).Nodup ∧
        ((l.foldl (fpStep sid) m).map Prod.fst).toFinset =
          (m.map Prod.fst).toFinset ∪
            (l.map (fun p => create_address p.1 p.2)).toFinset := by
  intro l
  induction l with
  | nil => intro m h; exact ⟨h, by simp⟩
  | cons p l ih =>
    intro m h
    have hkeys := keys_insertKV m (create_address p.1 p.2)
      ⟨f64ToU32 (p.1.time * 1000), sid⟩
    set k := create_address p.1 p.2 with hk
    have hnodup : ((fpStep sid m p).map Prod.fst).Nodup := by
      rw [show fpStep sid m p = insertKV m k ⟨f64ToU32 (p.1.time * 1000), sid⟩
        from rfl, hkeys]
      split
      · exact h
      · rename_i hmem
        have : k ∉ m.map Prod.fst := fun hin =>
          hmem ((any_eq_mem_keys m k).mpr hin)
        simp [List.nodup_append, h, this]
    have hset : ((fpStep sid m p).map Prod.fst).toFinset =
        insert k (m.map Prod.fst).toFinset := by
      rw [show fpStep sid m p = insertKV m k ⟨f64ToU32 (p.1.time * 1000), sid⟩
        from rfl, hkeys]
      split
      · rename_i hmem
        have : k ∈ m.map Prod.fst := (any_eq_mem_keys m k).mp (by
          simpa using hmem)
        exact (Finset.insert_eq_self.mpr (List.mem_toFinset.mpr this)).symm
      · simp [List.toFinset_append, Finset.union_comm, Finset.insert_eq]
    obtain ⟨ih1, ih2⟩ := ih (fpStep sid m p) hnodup
    refine ⟨by simpa using ih1, ?_⟩
    rw [List.foldl_cons, ih2, hset]
    simp [Finset.insert_union, Finset.union_insert]

/-- C9: the fingerprint map holds at most one couple per address — its key
list is duplicate-free — and its size is the number of *distinct* addresses
over all anchor/target pairs, not the number of pairs. -/
theorem fingerprint_one_couple_per_address (peaks : List Peak) (sid : ℕ) :
    ((fingerprint peaks sid).map Prod.fst).Nodup ∧
      (fingerprint peaks sid).length =
        ((fpPairs peaks).map (fun p => create_address p.1 p.2)).toFinset.card := by
  obtain ⟨h1, h2⟩ := fpFold_keys sid (fpPairs peaks) [] (by simp)
  rw [show fingerprint peaks sid = (fpPairs peaks).foldl (fpStep sid) [] from
    rfl]
  refine ⟨h1, ?_⟩
  have hlen : ((fpPairs peaks).foldl (fpStep sid) []).length =
      (((fpPairs peaks).foldl (fpStep sid) []).map Prod.fst).length := by simp
  rw [hlen, ← List.toFinset_card_of_nodup h1, h2]
  simp

/-- Models the query-side fingerprinting of `find_matches`
(src/shazam/shazam.rs:54): `fingerprint(&peaks, utils::generate_unique_id())`.
The parameter `rng_id` stands for the value returned by
`utils::generate_unique_id()`, which draws a fresh *random* `u32`
(src/utils/utils.rs:8-12); the code does not pass 0. -/
def queryFingerprints (peaks : List Peak) (rng_id : ℕ) : List (ℕ × Couple) :=
  fingerprint peaks rng_id

/-- Upserting a couple that satisfies a predicate preserves `all`. -/
theorem all_insertKV (P : ℕ × Couple → Bool) (m : List (ℕ × Couple)) (k : ℕ)
    (v : Couple) (hm : m.all P = true) (hv : P (k, v) = true) :
    (insertKV m k v).all P = true := by
  unfold insertKV
  rw [List.all_eq_true] at hm
  split
  · rw [List.all_eq_true]
    intro x hx
    rw [List.mem_map] at hx
    obtain ⟨p, hp, hpx⟩ := hx
    by_cases h : p.1 = k
    · rw [if_pos (by simpa using h)] at hpx
      exact hpx ▸ hv
    · rw [if_neg (by simpa using h)] at hpx
      exact hpx ▸ hm p hp
  · rw [List.all_eq_true]
    intro x hx
    rcases List.mem_append.mp hx with h | h
    · exact hm x h
    · simpa [List.mem_singleton.mp h] using hv

/-- Every couple the fingerprint fold produces carries the song id the fold
was given. -/
theorem fpFold_song_id (sid : ℕ) :
    ∀ (l : List (Peak × Peak)) (m : List (ℕ × Couple)),
      m.all (fun e => e.2.song_id == sid) = true →
      (l.foldl (fpStep sid) m).all (fun e => e.2.song_id == sid) = true := by
  intro l
  induction l with
  | nil => intro m hm; simpa using hm
  | cons p l ih =>
    intro m hm
    rw [List.foldl_cons]
    exact ih _ (all_insertKV _ m _ _ hm (by simp))

/-- C7 (counterexample): the query-side couples do *not* carry song id 0 —
with the random draw modelled as 7, every couple carries 7. -/
theorem query_song_id_zero_counterexample :
    (queryFingerprints [⟨0, (50, 0)⟩, ⟨1, (60, 0)⟩] 7).all
        (fun e => e.2.song_id == 0) = false ∧
      (queryFingerprints [⟨0, (50, 0)⟩, ⟨1, (60, 0)⟩] 7).length = 1 := by
  constructor <;> rfl

/-- C7 (amended): every couple in the per-query fingerprint map carries the
freshly drawn random id handed to `fingerprint` — an arbitrary `u32`, not
the constant 0.  (The matcher never reads this id: scoring only uses the
couples stored in the database.) -/
theorem query_fingerprints_song_id (peaks : List Peak) (rng_id : ℕ) :
    (queryFingerprints peaks rng_id).all
      (fun e => e.2.song_id == rng_id) = true :=
  fpFold_song_id rng_id (fpPairs peaks) [] rfl

/-- Models the tolerance test of `analyze_relative_timing`
(src/shazam/shazam.rs:136-138): with `u32` anchor times exact in `f64`,
`(|q_i − q_j| − |db_i − db_j|).abs < 100.0` is this integer predicate. -/
def timingHit (p q : ℕ × ℕ) : Bool :=
  ((((p.1 : ℤ) - q.1).natAbs : ℤ) - (((p.2 : ℤ) - q.2).natAbs : ℤ)).natAbs < 100

/-- Models the double loop of `analyze_relative_timing`
(src/shazam/shazam.rs:134-141): `i` runs over positions (the head of each
suffix), `j` over the later positions, and `count` increments on every hit.
The `f64` score is the count, an exact small integer. -/
def scoreLoop : List (ℕ × ℕ) → ℕ
  | [] => 0
  | t :: ts => ts.countP (fun q => timingHit t q) + scoreLoop ts

/-- Models `analyze_relative_timing` (src/shazam/shazam.rs:130-146): one
score per song entry.  The association list stands for the `HashMap`
`song_id -> Vec<[u32; 2]>`; entry order is iteration order and is never
relied upon. -/
def analyze_relative_timing (songPairs : List (ℕ × List (ℕ × ℕ))) :
    List (ℕ × ℕ) :=
  songPairs.map (fun e => (e.1, scoreLoop e.2))

/-- Spec-side predicate for claim C3: a two-element selection of the
accumulated pairs is a hit. -/
def isHitPair : List (ℕ × ℕ) → Bool
  | [a, b] => timingHit a b
  | _ => false

/-- Spec-side count for claim C3: the number of unordered position pairs
`(i, j)`, `i < j`, of accumulated pairs that satisfy the tolerance test —
enumerated as the length-2 order-preserving sublists. -/
def pairCountSpec (ts : List (ℕ × ℕ)) : ℕ :=
  (ts.sublistsLen 2).countP isHitPair

/-- Counting over a reversed list is unchanged. -/
theorem countP_reverse_eq (p : ℕ × ℕ → Bool) (l : List (ℕ × ℕ)) :
    l.reverse.countP p = l.countP p := by
  simp [List.countP_eq_length_filter]

/-- The nested loop of the scorer counts exactly the hitting unordered
pairs. -/
theorem scoreLoop_eq_pairCountSpec (ts : List (ℕ × ℕ)) :
    scoreLoop ts = pairCountSpec ts := by
  induction ts with
  | nil => simp [scoreLoop, pairCountSpec, List.sublistsLen_succ_nil]
  | cons t ts ih =>
    rw [show scoreLoop (t :: ts) =
      ts.countP (fun q => timingHit t q) + scoreLoop ts from rfl, ih]
    unfold pairCountSpec
    rw [List.sublistsLen_succ_cons, List.countP_append, List.sublistsLen_one,
      List.countP_map, List.countP_map]
    have hpred : ((isHitPair ∘ List.cons t) ∘ fun a => [a]) =
        fun q => timingHit t q := by
      funext a
      rfl
    rw [hpred, countP_reverse_eq]
    norm_num
    omega

/-- C3: for every song entry, the matcher's score is the number of unordered
pairs `(i, j)` of that song's accumulated `(q_anchor_ms, db_anchor_ms)`
pairs whose relative-timing difference is strictly below 100 ms. -/
theorem analyze_relative_timing_counts_pairs
    (songPairs : List (ℕ × List (ℕ × ℕ))) :
    analyze_relative_timing songPairs =
      songPairs.map (fun e => (e.1, pairCountSpec e.2)) := by
  unfold analyze_relative_timing
  refine List.map_congr_left ?_
  intro e _
  rw [scoreLoop_eq_pairCountSpec]

/-- Models `shazam::Match` (src/shazam/shazam.rs:20-27).  The score is the
hit count of `analyze_relative_timing`, an exact small integer, so it is
kept as a natural number. -/
structure Match where
  song_id : ℕ
  song_title : String
  song_artist : String
  youtube_id : String
  timestamp : ℕ
  score : ℕ
deriving DecidableEq, Repr

/-- Models the final sort of `find_matches` (src/shazam/shazam.rs:123):
Rust's stable `sort_by` with comparator `b.score.partial_cmp(&a.score)`,
i.e. a stable merge sort into descending-score order.  The input order is
the iteration order of the score map, which the code does not constrain. -/
def sortMatches (l : List Match) : List Match :=
  l.mergeSort (fun a b => decide (b.score ≤ a.score))

/-- C4 (counterexample): two matches with equal score 5 and song ids 2 and 1
— a possible assembly order, since the score map is a `HashMap` — are left
in that order by the sort, so equal-score matches are *not* ordered by
ascending `song_id`. -/
theorem sortMatches_tie_counterexample :
    (sortMatches [⟨2, "", "", "", 0, 5⟩, ⟨1, "", "", "", 0, 5⟩]).map
        (fun m => (m.score, m.song_id)) = [(5, 2), (5, 1)] := by
  rw [show sortMatches [⟨2, "", "", "", 0, 5⟩, ⟨1, "", "", "", 0, 5⟩] =
      [⟨2, "", "", "", 0, 5⟩, ⟨1, "", "", "", 0, 5⟩] from
    List.mergeSort_of_sorted (by decide)]
  rfl

/-- C4 (amended): the returned match list is a permutation of the assembled
one, sorted in descending order of score; the order of equal-score matches
is whatever the (unspecified) assembly order was, with no `song_id`
tie-break. -/
theorem sortMatches_sorted_desc (l : List Match) :
    (sortMatches l).Pairwise (fun a b => b.score ≤ a.score) ∧
      (sortMatches l).Perm l := by
  constructor
  · have h := @List.sorted_mergeSort Match
      (fun a b : Match => decide (b.score ≤ a.score))
      (fun a b c h1 h2 => by
        simp only [decide_eq_true_eq] at *
        omega)
      (fun a b => by
        simp only [Bool.or_eq_true, decide_eq_true_eq]
        omega) l
    exact h.imp (fun hab => by simpa using hab)
  · exact List.mergeSort_perm l _

/-- Models the averaging loop of `downsample`
(src/shazam/spectrogram.rs:75-85): each output sample is the mean of the
next `r` input samples (fewer at the tail). -/
def meanChunks (r : ℕ) : List ℚ → List ℚ
  | [] => []
  | x :: xs =>
    ((x :: xs.take (r - 1)).sum / ((x :: xs.take (r - 1)).length : ℚ)) ::
      meanChunks r (xs.drop (r - 1))
termination_by l => l.length
decreasing_by simp; omega

/-- Models `spectrogram::downsample` (src/shazam/spectrogram.rs:62-88),
including its three error guards; `tdiv` models Rust integer division
(truncation toward zero). -/
def downsample (input : List ℚ)
    (original_sample_rate target_sample_rate : ℤ) :
    Except String (List ℚ) :=
  if target_sample_rate ≤ 0 ∨ original_sample_rate ≤ 0 then
    .error "sample rates must be positive"
  else if original_sample_rate < target_sample_rate then
    .error "target sample rate must be less than or equal to original sample rate"
  else
    let ratio := original_sample_rate.tdiv target_sample_rate
    if ratio ≤ 0 then .error "invalid ratio calculated from sample rates"
    else .ok (meanChunks ratio.toNat input)

/-- With ratio 1 every chunk is a single sample, so averaging is the
identity. -/
theorem meanChunks_one (l : List ℚ) : meanChunks 1 l = l := by
  induction l with
  | nil => rw [meanChunks]
  | cons x xs ih =>
    rw [meanChunks]
    simp [ih]

/-- C8: downsampling with equal (positive) input and output rates succeeds
and returns the input unchanged. -/
theorem downsample_same_rate (x : List ℚ) (R : ℤ) (h : 0 < R) :
    downsample x R R = .ok x := by
  unfold downsample
  rw [if_neg (by push_neg; omega), if_neg (by omega)]
  have ht : R.tdiv R = 1 := Int.tdiv_self (by omega)
  rw [ht, if_neg (by norm_num)]
  simp [meanChunks_one]

/-- C8 witness: a concrete list at 44.1 kHz in and out. -/
theorem downsample_same_rate_witness :
    downsample [(3 : ℚ), 5, 8] 44100 44100 = .ok [3, 5, 8] :=
  downsample_same_rate [(3 : ℚ), 5, 8] 44100 (by norm_num)

/-- Models one row of the `songs` table
(src/db/sqlite.rs:234-241): `id INTEGER PRIMARY KEY, title, artist,
ytID TEXT UNIQUE, key TEXT NOT NULL UNIQUE`. -/
structure SongRow where
  id : ℕ
  title : String
  artist : String
  ytID : String
  key : String
deriving DecidableEq, Repr

/-- Models the SQLite database state: the two tables created by
`create_tables` (src/db/sqlite.rs:233-259).  A table is its set of rows;
`fingerprints` rows are `(address, anchorTimeMs, songID)` triples whose
primary key covers all three columns. -/
structure DBState where
  songs : List SongRow
  fingerprints : List (ℕ × ℕ × ℕ)
deriving DecidableEq, Repr

/-- Models `utils::generate_song_key` (src/utils/utils.rs:15-17). -/
def generate_song_key (song_title song_artist : String) : String :=
  song_title ++ "---" ++ song_artist

/-- Models one `INSERT OR REPLACE` into `fingerprints`: since the primary
key is the whole row, replacing an identical row leaves the row set
unchanged, so this is set insertion. -/
def fpInsert (l : List (ℕ × ℕ × ℕ)) (t : ℕ × ℕ × ℕ) : List (ℕ × ℕ × ℕ) :=
  if t ∈ l then l else l ++ [t]

/-- Models `SQLiteClient::store_fingerprints` (src/db/sqlite.rs:32-47):
one upsert per map entry, committed atomically. -/
def store_fingerprints (st : DBState) (fps : List (ℕ × Couple)) : DBState :=
  { st with
    fingerprints :=
      fps.foldl (fun l e => fpInsert l (e.1, e.2.anchor_time_ms, e.2.song_id))
        st.fingerprints }

/-- Models `SQLiteClient::get_couples` (src/db/sqlite.rs:50-75): for each
requested address, the couples of all fingerprint rows at that address. -/
def get_couples (st : DBState) (addresses : List ℕ) :
    List (ℕ × List Couple) :=
  addresses.map (fun a =>
    (a, (st.fingerprints.filter (fun r => r.1 == a)).map
      (fun r => ⟨r.2.1, r.2.2⟩)))

/-- Models `SQLiteClient::total_songs` (src/db/sqlite.rs:78-81). -/
def total_songs (st : DBState) : ℕ := st.songs.length

/-- Models `SQLiteClient::delete_song_by_id` (src/db/sqlite.rs:163-166):
`DELETE FROM songs WHERE id = ?` — and nothing else; the schema declares no
foreign key, so no cascade touches `fingerprints`. -/
def delete_song_by_id (st : DBState) (song_id : ℕ) : DBState :=
  { st with songs := st.songs.filter (fun r => !(r.id == song_id)) }

/-- Models `SQLiteClient::register_song` (src/db/sqlite.rs:84-118).
`rng_id` stands for the random `u32` drawn by `utils::generate_unique_id`.
A conflict on the `id` primary key surfaces as the generic failure message;
a conflict on the unique `ytID` or `key` columns surfaces as the
already-exists message (`SQLITE_CONSTRAINT_UNIQUE`); either way the
transaction rolls back and the state is unchanged. -/
def register_song (st : DBState) (song_title song_artist yt_id : String)
    (rng_id : ℕ) : Except String ℕ × DBState :=
  if st.songs.any (fun r => r.id == rng_id) then
    (.error "failed to register song", st)
  else if st.songs.any (fun r =>
      r.ytID == yt_id || r.key == generate_song_key song_title song_artist) then
    (.error "song with ytID or key already exists", st)
  else
    (.ok rng_id,
      { st with
        songs := st.songs ++
          [⟨rng_id, song_title, song_artist, yt_id,
            generate_song_key song_title song_artist⟩] })

/-- C1 (counterexample): starting from a state holding song 1 and one
posting for it, `delete_song` removes the song row, yet `get_postings` on
the posting's address still returns a posting carrying the deleted
`song_id` 1 — the cascade the claim asserts does not happen. -/
theorem delete_song_cascade_counterexample :
    (delete_song_by_id
        ⟨[⟨1, "Alpha", "Artist-A", "yt-1", "Alpha---Artist-A"⟩],
          [(842137650, 0, 1)]⟩ 1).songs = [] ∧
      get_couples
          (delete_song_by_id
            ⟨[⟨1, "Alpha", "Artist-A", "yt-1", "Alpha---Artist-A"⟩],
              [(842137650, 0, 1)]⟩ 1) [842137650] =
        [(842137650, [⟨0, 1⟩])] := by
  constructor <;> rfl

/-- C1 (amended): `delete_song` removes exactly the song rows with the
given id and leaves the `fingerprints` table untouched, so a subsequent
`get_postings` returns exactly what it returned before the delete —
postings carrying the deleted `song_id` included.  (The matcher later drops
such orphans when `get_song_by_id` misses.) -/
theorem delete_song_no_cascade (st : DBState) (sid : ℕ) (addrs : List ℕ) :
    (delete_song_by_id st sid).songs =
        st.songs.filter (fun r => !(r.id == sid)) ∧
      (delete_song_by_id st sid).fingerprints = st.fingerprints ∧
      get_couples (delete_song_by_id st sid) addrs = get_couples st addrs :=
  ⟨rfl, rfl, rfl⟩

/-- Membership is preserved by an upsert. -/
theorem mem_fpInsert_of_mem {x t : ℕ × ℕ × ℕ} {l : List (ℕ × ℕ × ℕ)}
    (h : x ∈ l) : x ∈ fpInsert l t := by
  unfold fpInsert
  split
  · exact h
  · exact List.mem_append_left _ h

/-- An upsert makes its row present. -/
theorem mem_fpInsert_self (l : List (ℕ × ℕ × ℕ)) (t : ℕ × ℕ × ℕ) :
    t ∈ fpInsert l t := by
  unfold fpInsert
  split
  · assumption
  · exact List.mem_append_right _ (List.mem_singleton.mpr rfl)

/-- The triple stored for a fingerprint-map entry. -/
def tripleOf (e : ℕ × Couple) : ℕ × ℕ × ℕ :=
  (e.1, e.2.anchor_time_ms, e.2.song_id)

/-- Membership survives the whole store fold. -/
theorem mem_storeFold {x : ℕ × ℕ × ℕ} :
    ∀ (fps : List (ℕ × Couple)) (l : List (ℕ × ℕ × ℕ)), x ∈ l →
      x ∈ fps.foldl (fun l e => fpInsert l (tripleOf e)) l := by
  intro fps
  induction fps with
  | nil => intro l h; exact h
  | cons e fps ih => intro l h; exact ih _ (mem_fpInsert_of_mem h)

/-- After the store fold, every stored triple is present. -/
theorem storeFold_mem_all :
    ∀ (fps : List (ℕ × Couple)) (l : List (ℕ × ℕ × ℕ)) (e : ℕ × Couple),
      e ∈ fps → tripleOf e ∈ fps.foldl (fun l e => fpInsert l (tripleOf e)) l := by
  intro fps
  induction fps with
  | nil => intro l e h; cases h
  | cons e0 fps ih =>
    intro l e h
    rcases List.mem_cons.mp h with h | h
    · subst h
      exact mem_storeFold fps _ (mem_fpInsert_self l (tripleOf e))
    · exact ih _ e h

/-- Folding upserts of rows that are all already present is the identity. -/
theorem storeFold_noop :
    ∀ (fps : List (ℕ × Couple)) (l : List (ℕ × ℕ × ℕ)),
      (∀ e ∈ fps, tripleOf e ∈ l) →
      fps.foldl (fun l e => fpInsert l (tripleOf e)) l = l := by
  intro fps
  induction fps with
  | nil => intro l _; rfl
  | cons e0 fps ih =>
    intro l h
    have h0 : fpInsert l (tripleOf e0) = l := by
      unfold fpInsert
      rw [if_pos (h e0 (List.mem_cons_self e0 fps))]
    rw [List.foldl_cons, h0]
    exact ih l (fun e he => h e (List.mem_cons_of_mem e0 he))

/-- C5: `store_postings` is idempotent — running the same fingerprint batch
twice leaves the database in exactly the state one run produces, because
rows are keyed by the whole `(address, anchor_time_ms, song_id)` triple and
re-inserting an identical row replaces it with itself. -/
theorem store_fingerprints_idempotent (st : DBState)
    (fps : List (ℕ × Couple)) :
    store_fingerprints (store_fingerprints st fps) fps =
      store_fingerprints st fps := by
  unfold store_fingerprints
  have hfold : ∀ (l : List (ℕ × ℕ × ℕ)),
      fps.foldl (fun l e => fpInsert l (e.1, e.2.anchor_time_ms, e.2.song_id)) l =
        fps.foldl (fun l e => fpInsert l (tripleOf e)) l := by
    intro l; rfl
  simp only
  rw [hfold, hfold, storeFold_noop fps _ (fun e he => storeFold_mem_all fps _ e he)]

/-- C6: once `register_song` has succeeded for a `(title, artist)` pair, a
second call with the same pair — and a fresh random id, as drawn in
practice — fails with the unique-constraint (already-exists) error on the
duplicated dedup key, and the songs table holds exactly as many rows after
the failed call as before it. -/
theorem register_song_duplicate_key (st : DBState) (t a y1 y2 : String)
    (r1 r2 : ℕ)
    (h1 : (register_song st t a y1 r1).1 = .ok r1)
    (h2 : ((register_song st t a y1 r1).2.songs.all
      (fun r => !(r.id == r2))) = true) :
    (register_song (register_song st t a y1 r1).2 t a y2 r2).1 =
        .error "song with ytID or key already exists" ∧
      total_songs (register_song (register_song st t a y1 r1).2 t a y2 r2).2 =
        total_songs (register_song st t a y1 r1).2 := by
  set st1 := (register_song st t a y1 r1).2 with hst1
  have hsongs : st1.songs =
      st.songs ++ [⟨r1, t, a, y1, generate_song_key t a⟩] := by
    by_cases c1 : (st.songs.any fun r => r.id == r1) = true
    · simp [register_song, c1] at h1
    · by_cases c2 : (st.songs.any fun r =>
          r.ytID == y1 || r.key == generate_song_key t a) = true
      · simp [register_song, c1, c2] at h1
      · rw [hst1]; simp [register_song, c1, c2]
  have hid : (st1.songs.any fun r => r.id == r2) = false := by
    rw [List.all_eq_true] at h2
    cases hcase : (st1.songs.any fun r => r.id == r2) with
    | false => rfl
    | true =>
      obtain ⟨r, hr, hrid⟩ := List.any_eq_true.mp hcase
      have hall := h2 r hr
      simp only [Bool.not_eq_true'] at hall
      rw [hall] at hrid
      cases hrid
  have hkey : (st1.songs.any fun r =>
      r.ytID == y2 || r.key == generate_song_key t a) = true := by
    rw [hsongs]
    refine List.any_eq_true.mpr
      ⟨⟨r1, t, a, y1, generate_song_key t a⟩,
        List.mem_append_right _ (List.mem_singleton.mpr rfl), by simp⟩
  constructor
  · simp [register_song, hid, hkey]
  · simp [register_song, hid, hkey]

/-- C6 witness: register "Alpha" by "Artist-A" into an empty database with
random id 1, then attempt the same title and artist with a different
external reference and fresh random id 2. -/
theorem register_song_duplicate_key_witness :
    (register_song (register_song ⟨[], []⟩ "Alpha" "Artist-A" "yt-1" 1).2
        "Alpha" "Artist-A" "yt-2" 2).1 =
        .error "song with ytID or key already exists" ∧
      total_songs (register_song
          (register_song ⟨[], []⟩ "Alpha" "Artist-A" "yt-1" 1).2
          "Alpha" "Artist-A" "yt-2" 2).2 =
        total_songs (register_song ⟨[], []⟩ "Alpha" "Artist-A" "yt-1" 1).2 :=
  register_song_duplicate_key ⟨[], []⟩ "Alpha" "Artist-A" "yt-1" "yt-2" 1 2
    (by rfl) (by rfl)

/-- State-passing loop of `LowPassFilter::filter`
(src/shazam/filter.rs:18-30) after the first sample:
`y = alpha * x + (1 - alpha) * y_prev`.  `alpha` stands for the coefficient
`dt / (RC + dt)` computed by `LowPassFilter::new` from the (transcendental)
cutoff expression; the theorems hold for every value. -/
def lpGo (alpha : ℚ) (y_prev : ℚ) : List ℚ → List ℚ
  | [] => []
  | x :: xs => (alpha * x + (1 - alpha) * y_prev) ::
      lpGo alpha (alpha * x + (1 - alpha) * y_prev) xs

/-- Models `LowPassFilter::filter`: the first output is `x * alpha`
(the `i == 0` branch), later outputs use the recurrence. -/
def lowPassFilter (alpha : ℚ) : List ℚ → List ℚ
  | [] => []
  | x :: xs => (x * alpha) :: lpGo alpha (x * alpha) xs

/-- Models `data.iter().step_by(2)` of `recursive_fft`
(src/shazam/fft.rs:19): the even-position elements. -/
def evens {α : Type*} : List α → List α
  | [] => []
  | [x] => [x]
  | x :: _ :: rest => x :: evens rest

/-- Models `data.iter().skip(1).step_by(2)` (src/shazam/fft.rs:20): the
odd-position elements. -/
def odds {α : Type*} : List α → List α
  | [] => []
  | [_] => []
  | _ :: y :: rest => y :: odds rest

theorem length_evens {α : Type*} : ∀ l : List α,
    (evens l).length = (l.length + 1) / 2
  | [] => by simp [evens]
  | [_] => by simp [evens]
  | _ :: _ :: rest => by
    rw [show evens (_ :: _ :: rest) = _ :: evens rest from rfl]
    simp only [List.length_cons, length_evens rest]
    omega

theorem length_odds {α : Type*} : ∀ l : List α,
    (odds l).length = l.length / 2
  | [] => by simp [odds]
  | [_] => by simp [odds]
  | _ :: _ :: rest => by
    rw [show odds (_ :: _ :: rest) = _ :: odds rest from rfl]
    simp only [List.length_cons, length_odds rest]
    omega

/-- Complex addition on rational pairs. -/
def cadd (a b : ℚ × ℚ) : ℚ × ℚ := (a.1 + b.1, a.2 + b.2)

/-- Complex subtraction on rational pairs. -/
def csub (a b : ℚ × ℚ) : ℚ × ℚ := (a.1 - b.1, a.2 - b.2)

/-- Complex multiplication on rational pairs. -/
def cmul (a b : ℚ × ℚ) : ℚ × ℚ :=
  (a.1 * b.1 - a.2 * b.2, a.1 * b.2 + a.2 * b.1)

/-- Models the butterfly loop of `recursive_fft` (src/shazam/fft.rs:25-30):
start from `vec![0; n]`, and for `k < n/2` set positions `k` and `k + n/2`.
`tw k n` stands for the twiddle factor
`Complex::from_polar(1.0, -2 pi k / n)`, whose transcendental value is a
parameter.  Indexing `fft_even[k]`, `fft_odd[k]` is in bounds in every call
the code makes, so `getD` is exact there. -/
def combineFFT (tw : ℕ → ℕ → ℚ × ℚ) (n : ℕ) (fe fo : List (ℚ × ℚ)) :
    List (ℚ × ℚ) :=
  (List.range (n / 2)).foldl
    (fun r k =>
      (r.set k (cadd (fe.getD k (0, 0)) (cmul (tw k n) (fo.getD k (0, 0))))).set
        (k + n / 2)
        (csub (fe.getD k (0, 0)) (cmul (tw k n) (fo.getD k (0, 0)))))
    (List.replicate n (0, 0))

/-- Models `fft::recursive_fft` (src/shazam/fft.rs:12-33). -/
def recursive_fft (tw : ℕ → ℕ → ℚ × ℚ) (data : List (ℚ × ℚ)) :
    List (ℚ × ℚ) :=
  if data.length ≤ 1 then data
  else
    combineFFT tw data.length (recursive_fft tw (evens data))
      (recursive_fft tw (odds data))
termination_by data.length
decreasing_by
  · rw [length_evens]; omega
  · rw [length_odds]; omega

/-- Models `fft::fft` (src/shazam/fft.rs:5-9): promote the real input to
complex values and run the recursion. -/
def fft (tw : ℕ → ℕ → ℚ × ℚ) (input : List ℚ) : List (ℚ × ℚ) :=
  recursive_fft tw (input.map (fun v => (v, 0)))

/-- Models the window extraction of `spectrogram`
(src/shazam/spectrogram.rs:39-46): `vec![0.0; 1024]` with the available
samples `[start, min(start+1024, len))` copied in — i.e. the slice padded
with zeros to length 1024. -/
def makeBin (ds : List ℚ) (start : ℕ) : List ℚ :=
  ((ds.drop start).take 1024) ++
    List.replicate (1024 - ((ds.drop start).take 1024).length) 0

/-- Models the in-place Hamming multiply (src/shazam/spectrogram.rs:49-51).
`ham j` stands for the window coefficient
`0.54 - 0.46 * cos(2 pi j / 1023)`, a transcendental parameter. -/
def applyHam (ham : ℕ → ℚ) (bin : List ℚ) : List ℚ :=
  bin.enum.map (fun p => p.2 * ham p.1)

/-- Models `spectrogram::spectrogram` (src/shazam/spectrogram.rs:16-59):
low-pass filter, downsample to `sample_rate / DSP_RATIO` with
`DSP_RATIO = 4`, then `len / (1024 - 32)` Hamming-windowed FFT frames with
hop 32. -/
def spectrogram (alpha : ℚ) (ham : ℕ → ℚ) (tw : ℕ → ℕ → ℚ × ℚ)
    (samples : List ℚ) (sample_rate : ℤ) :
    Except String (List (List (ℚ × ℚ))) :=
  match downsample (lowPassFilter alpha samples) sample_rate
      (sample_rate.tdiv 4) with
  | .error e => .error ("failed to downsample audio samples: " ++ e)
  | .ok ds =>
    .ok ((List.range (ds.length / (1024 - 32))).map
      (fun i => fft tw (applyHam ham (makeBin ds (i * 32)))))

/-- The window list a `spectrogram` call produces (empty when the call
errors). -/
def spectrogramWindows (alpha : ℚ) (ham : ℕ → ℚ) (tw : ℕ → ℕ → ℚ × ℚ)
    (samples : List ℚ) (sample_rate : ℤ) : List (List (ℚ × ℚ)) :=
  match spectrogram alpha ham tw samples sample_rate with
  | .ok s => s
  | .error _ => []

theorem length_makeBin (ds : List ℚ) (start : ℕ) :
    (makeBin ds start).length = 1024 := by
  unfold makeBin
  simp

theorem length_applyHam (ham : ℕ → ℚ) (bin : List ℚ) :
    (applyHam ham bin).length = bin.length := by
  simp [applyHam]

theorem length_combineFFT (tw : ℕ → ℕ → ℚ × ℚ) (n : ℕ)
    (fe fo : List (ℚ × ℚ)) : (combineFFT tw n fe fo).length = n := by
  unfold combineFFT
  have h : ∀ (ks : List ℕ) (acc : List (ℚ × ℚ)),
      (ks.foldl
        (fun r k =>
          (r.set k (cadd (fe.getD k (0, 0))
            (cmul (tw k n) (fo.getD k (0, 0))))).set (k + n / 2)
            (csub (fe.getD k (0, 0)) (cmul (tw k n) (fo.getD k (0, 0)))))
        acc).length = acc.length := by
    intro ks
    induction ks with
    | nil => intro acc; rfl
    | cons k ks ih =>
      intro acc
      rw [List.foldl_cons, ih]
      simp
  rw [h]
  simp

theorem length_recursive_fft (tw : ℕ → ℕ → ℚ × ℚ) (data : List (ℚ × ℚ)) :
    (recursive_fft tw data).length = data.length := by
  unfold recursive_fft
  split
  · rfl
  · exact length_combineFFT tw data.length _ _

theorem length_fft (tw : ℕ → ℕ → ℚ × ℚ) (input : List ℚ) :
    (fft tw input).length = input.length := by
  unfold fft
  rw [length_recursive_fft]
  simp

/-- Every window `spectrogram` emits is an FFT of a 1024-sample frame, so
its length is 1024. -/
theorem mem_spectrogramWindows_length (alpha : ℚ) (ham : ℕ → ℚ)
    (tw : ℕ → ℕ → ℚ × ℚ) (samples : List ℚ) (sample_rate : ℤ) :
    ∀ bin ∈ spectrogramWindows alpha ham tw samples sample_rate,
      bin.length = 1024 := by
  intro bin hbin
  unfold spectrogramWindows spectrogram at hbin
  cases hds : downsample (lowPassFilter alpha samples) sample_rate
      (sample_rate.tdiv 4) with
  | error e =>
    rw [hds] at hbin
    simp at hbin
  | ok ds =>
    rw [hds] at hbin
    simp only [List.mem_map] at hbin
    obtain ⟨i, _, rfl⟩ := hbin
    rw [length_fft, length_applyHam, length_makeBin]

/-- Models the local `Maxies` struct of `extract_peaks`
(src/shazam/spectrogram.rs:104-108).  `max_mag` holds the value of
`freq.norm()`, supplied through the `mag` parameter below. -/
structure Maxies where
  max_mag : ℚ
  max_freq : ℚ × ℚ
  freq_idx : ℕ
deriving DecidableEq, Repr

/-- Models the Rust slice `bin[mn..mx]`, which panics — here: `none` — when
the range is not within bounds. -/
def sliceRange (l : List (ℚ × ℚ)) (mn mx : ℕ) : Option (List (ℚ × ℚ)) :=
  if mn ≤ mx ∧ mx ≤ l.length then some ((l.drop mn).take (mx - mn)) else none

/-- The six fixed frequency bands of `extract_peaks`
(src/shazam/spectrogram.rs:111). -/
def bands : List (ℕ × ℕ) := [(0, 10), (10, 20), (20, 40), (40, 80), (80, 160), (160, 512)]

/-- Models the per-band maximum scan (src/shazam/spectrogram.rs:120-134):
fold over `bin[mn..mx]` tracking the entry of maximal magnitude, starting
from magnitude 0 at index `mn`.  `mag` stands for `Complex::norm`, a
transcendental parameter. -/
def bandMax (mag : ℚ × ℚ → ℚ) (bin : List (ℚ × ℚ)) (mn mx : ℕ) :
    Option Maxies :=
  (sliceRange bin mn mx).map (fun seg =>
    seg.enum.foldl
      (fun acc p =>
        if acc.max_mag < mag p.2 then ⟨mag p.2, p.2, mn + p.1⟩ else acc)
      ⟨0, (0, 0), mn⟩)

/-- Option-valued traversal: `some` exactly when every element maps to
`some`, mirroring a Rust loop that advances or panics per element. -/
def optTraverse {α β : Type*} (f : α → Option β) : List α → Option (List β)
  | [] => some []
  | a :: l =>
    match f a, optTraverse f l with
    | some b, some bs => some (b :: bs)
    | _, _ => none

/-- Models the per-window body of `extract_peaks`
(src/shazam/spectrogram.rs:117-154): scan the six bands, average the six
band maxima, and emit a peak for every band whose maximum strictly exceeds
the average, timestamped by the window index and the in-band frequency
index. -/
def windowPeaks (mag : ℚ × ℚ → ℚ) (bin_idx : ℕ) (bin : List (ℚ × ℚ))
    (bin_duration : ℚ) : Option (List Peak) :=
  (optTraverse (fun b => bandMax mag bin b.1 b.2) bands).map
    (fun maxies =>
      (maxies.filter (fun m =>
          (maxies.map (fun m2 => m2.max_mag)).sum /
            ((maxies.map (fun m2 => m2.max_mag)).length : ℚ) < m.max_mag)).map
        (fun m =>
          ⟨(bin_idx : ℚ) * bin_duration +
              (m.freq_idx : ℚ) * bin_duration / (bin.length : ℚ),
            m.max_freq⟩))

/-- Models `spectrogram::extract_peaks` (src/shazam/spectrogram.rs:98-158):
empty spectrogram short-circuits to no peaks; otherwise every window is
scanned (with `bin_duration = audio_duration / #windows`) and the per-window
peaks are concatenated in order. -/
def extract_peaks (mag : ℚ × ℚ → ℚ) (spectro : List (List (ℚ × ℚ)))
    (audio_duration : ℚ) : Option (List Peak) :=
  if spectro.isEmpty then some []
  else
    (optTraverse
      (fun p => windowPeaks mag p.1 p.2 (audio_duration / (spectro.length : ℚ)))
      spectro.enum).map List.flatten

theorem isSome_map {α β : Type*} (o : Option α) (g : α → β) :
    (o.map g).isSome = o.isSome := by
  cases o <;> rfl

/-- `all` over a mapped list tests the composite predicate. -/
theorem all_map_comp {α β : Type*} (f : α → β) (p : β → Bool) :
    ∀ l : List α, (l.map f).all p = l.all (fun a => p (f a))
  | [] => rfl
  | a :: l => by
    rw [List.map_cons, List.all_cons, List.all_cons, all_map_comp f p l]

theorem optTraverse_isSome {α β : Type*} (f : α → Option β) :
    ∀ l : List α, (optTraverse f l).isSome = l.all (fun a => (f a).isSome)
  | [] => rfl
  | a :: l => by
    rw [show optTraverse f (a :: l) =
        (match f a, optTraverse f l with
          | some b, some bs => some (b :: bs)
          | _, _ => none) from rfl]
    rw [List.all_cons, ← optTraverse_isSome f l]
    cases f a <;> cases optTraverse f l <;> rfl

theorem sliceRange_isSome (l : List (ℚ × ℚ)) (mn mx : ℕ) :
    (sliceRange l mn mx).isSome = decide (mn ≤ mx ∧ mx ≤ l.length) := by
  unfold sliceRange
  split
  · rename_i h; simp [h]
  · rename_i h; simp [h]

theorem bandMax_isSome (mag : ℚ × ℚ → ℚ) (bin : List (ℚ × ℚ)) (mn mx : ℕ) :
    (bandMax mag bin mn mx).isSome = decide (mn ≤ mx ∧ mx ≤ bin.length) := by
  rw [← sliceRange_isSome]
  unfold bandMax
  exact isSome_map _ _

/-- A window scan succeeds exactly when the window reaches bin index 512,
the top of the last band. -/
theorem windowPeaks_isSome (mag : ℚ × ℚ → ℚ) (bin_idx : ℕ)
    (bin : List (ℚ × ℚ)) (bin_duration : ℚ) :
    (windowPeaks mag bin_idx bin bin_duration).isSome =
      decide (512 ≤ bin.length) := by
  unfold windowPeaks
  rw [isSome_map, optTraverse_isSome]
  simp only [bands, List.all_cons, List.all_nil, bandMax_isSome,
    Bool.and_true, ← Bool.decide_and]
  rw [decide_eq_decide]
  constructor <;> (intro h; omega)

/-- The peak scan succeeds exactly when every window reaches bin 512. -/
theorem extract_peaks_isSome (mag : ℚ × ℚ → ℚ)
    (spectro : List (List (ℚ × ℚ))) (d : ℚ) :
    (extract_peaks mag spectro d).isSome =
      spectro.all (fun bin => decide (512 ≤ bin.length)) := by
  unfold extract_peaks
  split
  · rename_i h
    rw [List.isEmpty_iff.mp h]
    rfl
  · rw [isSome_map, optTraverse_isSome]
    simp only [windowPeaks_isSome]
    conv_rhs => rw [← List.enum_map_snd spectro]
    rw [all_map_comp]

/-- Every window a `spectrogram` call emits has length 1024. -/
theorem spectrogramWindows_all1024 (alpha : ℚ) (ham : ℕ → ℚ)
    (tw : ℕ → ℕ → ℚ × ℚ) (samples : List ℚ) (rate : ℤ) :
    (spectrogramWindows alpha ham tw samples rate).all
      (fun bin => bin.length == 1024) = true := by
  rw [List.all_eq_true]
  intro bin hbin
  have h := mem_spectrogramWindows_length alpha ham tw samples rate bin hbin
  simp [h]

/-- C10: `extract_peaks` slices every window at the band bounds up to bin
512, so it is total — the `Option` model returns `some` — exactly when
every window has length at least 512; every spectrogram the `spectrogram`
function produces satisfies this, since each of its windows is an FFT of a
1024-sample frame, so running the peak scan on any spectrogram output is
total. -/
theorem extract_peaks_total_on_spectrogram :
    (∀ (mag : ℚ × ℚ → ℚ) (spectro : List (List (ℚ × ℚ))) (d : ℚ),
        (extract_peaks mag spectro d).isSome =
          spectro.all (fun bin => decide (512 ≤ bin.length))) ∧
      (∀ (alpha : ℚ) (ham : ℕ → ℚ) (tw : ℕ → ℕ → ℚ × ℚ) (samples : List ℚ)
          (rate : ℤ),
        (spectrogramWindows alpha ham tw samples rate).all
          (fun bin => bin.length == 1024) = true) ∧
      (∀ (mag : ℚ × ℚ → ℚ) (alpha : ℚ) (ham : ℕ → ℚ) (tw : ℕ → ℕ → ℚ × ℚ)
          (samples : List ℚ) (rate : ℤ) (d : ℚ),
        (extract_peaks mag (spectrogramWindows alpha ham tw samples rate)
          d).isSome = true) := by
  refine ⟨extract_peaks_isSome, spectrogramWindows_all1024, ?_⟩
  intro mag alpha ham tw samples rate d
  rw [extract_peaks_isSome, List.all_eq_true]
  intro bin hbin
  have h := mem_spectrogramWindows_length alpha ham tw samples rate bin hbin
  simp [h]
